import Mathlib

/-!
Verification development for the DeepWukong slice generator
(`src/data_generator.py`).  The Python functions `read_csv`,
`extract_line_number`, `extract_nodes_with_location_info`, `build_PDG` and
`build_XFG` are shallowly embedded as executable Lean definitions, and the
behavioural claims about them are settled as theorems below.

Modelling conventions:
* Python strings are Lean `String`; Python `int` values are Lean `Int`.
* A CSV row is a field-name-to-value association list built with
  `dictInsert`, which models Python dict assignment (overwrite on an
  existing key, append in insertion order otherwise).
* A raised Python exception is modelled as `none` (for helper functions)
  or as `Except.error` carrying the kind of exception (for `build_PDG`).
* File-system inputs are passed as `Option` values: `none` models a path
  that does not exist, `some c` models an existing file with content `c`.
* The networkx `DiGraph` is modelled by `PyDiGraph`: an insertion-ordered
  vertex list plus an insertion-ordered edge list with at most one entry
  per ordered vertex pair, each entry carrying the `"c/d"` attribute value
  (`"c"` for control, `"d"` for data).  `add_edges_from` on an existing
  pair overwrites the attribute in place, exactly as networkx updates the
  edge-data dict.
* Graph-level metadata (`file_paths`, and the `key_line` graph attribute
  set on each slice) is modelled by the `Xfg.key_line` field; the
  `source_path` argument of `build_PDG` only feeds that metadata and is
  therefore dropped from the embedding.
-/

/-- Characters of a string with surrounding whitespace removed, as Python
`str.strip()` does. -/
def stripChars (l : List Char) : List Char :=
  ((l.dropWhile Char.isWhitespace).reverse.dropWhile Char.isWhitespace).reverse

/-- Python `str.strip()`.  (Implemented structurally over the character
list so that proofs can evaluate it.) -/
def pyStrip (s : String) : String :=
  ⟨stripChars s.data⟩

/-- Splitting a character list at every occurrence of a separator
character; the first argument accumulates the current piece reversed. -/
def splitChars (sep : Char) : List Char → List Char → List (List Char)
  | cur, [] => [cur.reverse]
  | cur, c :: rest =>
    if c = sep then cur.reverse :: splitChars sep [] rest
    else splitChars sep (c :: cur) rest

/-- Python `str.split(sep)` for a one-character separator (the source only
splits on `:`, tab and `,`).  An empty string yields `['']`, as in
Python. -/
def pySplit (s : String) (sep : Char) : List String :=
  (splitChars sep [] s.data).map String.mk

/-- Value of a non-empty all-digit character list, `none` otherwise. -/
def digitsToNat (acc : Nat) : List Char → Option Nat
  | [] => some acc
  | c :: rest => if c.isDigit then digitsToNat (acc * 10 + (c.toNat - 48)) rest else none

/-- Result of Python `int(s)` on the inputs this program feeds it: strip
surrounding whitespace, accept an optional sign followed by at least one
digit, otherwise raise `ValueError` (modelled as `none`). -/
def pyInt (s : String) : Option Int :=
  match stripChars s.data with
  | [] => none
  | '-' :: rest =>
    if rest = [] then none else (digitsToNat 0 rest).map (fun n => -(n : Int))
  | '+' :: rest =>
    if rest = [] then none else (digitsToNat 0 rest).map (fun n => (n : Int))
  | l => (digitsToNat 0 l).map (fun n => (n : Int))

/-- Python dict assignment `d[k] = v` on an association list: overwrite the
entry of an existing key in place, otherwise append at the end (dict
insertion order). -/
def dictInsert {α : Type} : List (String × α) → String → α → List (String × α)
  | [], k, v => [(k, v)]
  | (k2, v2) :: rest, k, v =>
    if k2 = k then (k, v) :: rest else (k2, v2) :: dictInsert rest k v

/-- Python dict lookup `d[k]` / `k in d` on an association list. -/
def dictFind? {α : Type} : List (String × α) → String → Option α
  | [], _ => none
  | (k2, v) :: rest, k => if k2 = k then some v else dictFind? rest k

/-- Python `set.add` on an insertion-ordered list representation of a set. -/
def setAdd (s : List Int) (x : Int) : List Int :=
  if x ∈ s then s else s ++ [x]

/-- One row of the node table, as produced by `read_csv` for a header that
contains the columns `type`, `code`, `operator`, `key` and (optionally)
`location`.  `location = none` models a table without a `location` column
(the `'location' in node.keys()` test failing). -/
structure NodeRecord where
  type : String
  code : String
  operator : String
  key : String
  location : Option String
deriving DecidableEq, Repr

/-- One row of the edge table (columns `start`, `end`, `type`).  The Python
dict key `end` is a Lean keyword, hence the field name `end_`. -/
structure EdgeRecord where
  start : String
  end_ : String
  type : String
deriving DecidableEq, Repr

/-- Line number a single node contributes in `extract_line_number`: its
`location` field if present, non-blank after stripping, and with an
integer before the first `:`; the `try/except` around `int(...)` turns a
parse failure into `none` (the walk continues). -/
def locLine (c : NodeRecord) : Option Int :=
  match c.location with
  | none => none
  | some loc =>
    if pyStrip loc = "" then none
    else pyInt ((pySplit loc ':').headD "")

/-- Embedding of `extract_line_number(idx, nodes)`: walk backward from
index `idx` until a node yields a line number, returning `-1` when the
walk reaches the front without success.  (The source is only ever called
with `idx < len(nodes)`; for an out-of-range index this embedding keeps
walking down instead of raising `IndexError`.) -/
def extract_line_number (nodes : List NodeRecord) : Nat → Int
  | 0 =>
    match nodes[0]? with
    | some c => (locLine c).getD (-1)
    | none => -1
  | idx + 1 =>
    match nodes[idx + 1]? with
    | some c =>
      match locLine c with
      | some ln => ln
      | none => extract_line_number nodes idx
    | none => extract_line_number nodes idx

/-- Header parsing in `read_csv`: strip the header line, split on tabs,
strip every part. -/
def headerParts (header : String) : List String :=
  (pySplit (pyStrip header) '\t').map pyStrip

/-- Loop body of `read_csv` for one data row: strip the line, split on
tabs, then for every header part in order store the corresponding stripped
field, or `''` when the row has fewer fields than the header. -/
def rowGo (lparts : List String) : List (String × String) → Nat → List String → List (String × String)
  | inst, _, [] => inst
  | inst, i, hp :: rest =>
    rowGo lparts
      (dictInsert inst hp (match lparts[i]? with | some c => pyStrip c | none => ""))
      (i + 1) rest

/-- The dict `read_csv` builds for one data row. -/
def rowInstance (h_parts : List String) (line : String) : List (String × String) :=
  rowGo (pySplit (pyStrip line) '\t') [] 0 h_parts

/-- Embedding of `read_csv(csv_file_path)`.  The argument is the file's
list of lines (`none` when the path does not exist, in which case the
`assert exists(...)` raises, modelled by `none`).  The first line is the
header; every later line yields one row dict, in file order. -/
def read_csv (file : Option (List String)) : Option (List (List (String × String))) :=
  match file with
  | none => none
  | some lines =>
    let h_parts := headerParts (lines.headD "")
    some ((lines.drop 1).map (rowInstance h_parts))

/-- The four parallel results of `extract_nodes_with_location_info`. -/
structure LocInfo where
  node_indices : List Nat
  node_ids : List String
  line_numbers : List Int
  node_id_to_line_number : List (String × Int)
deriving DecidableEq, Repr

/-- Line number a node contributes in `extract_nodes_with_location_info`:
its own `location` if present and not exactly `''`, parsed without any
`try/except` — a parse failure there raises `ValueError`. -/
def ownLocLine (n : NodeRecord) : Option Int :=
  match n.location with
  | none => none
  | some loc =>
    if loc = "" then none
    else pyInt ((pySplit loc ':').headD "")

/-- Loop of `extract_nodes_with_location_info` over the node sequence with
its running index; `none` models the uncaught `ValueError` from
`int(location.split(':')[0])` on a present, non-empty, unparseable
location. -/
def locGo : LocInfo → Nat → List NodeRecord → Option LocInfo
  | acc, _, [] => some acc
  | acc, i, node :: rest =>
    match node.location with
    | none => locGo acc (i + 1) rest
    | some loc =>
      if loc = "" then locGo acc (i + 1) rest
      else
        match pyInt ((pySplit loc ':').headD "") with
        | none => none
        | some ln =>
          locGo
            ⟨acc.node_indices ++ [i], acc.node_ids ++ [pyStrip node.key],
             acc.line_numbers ++ [ln],
             dictInsert acc.node_id_to_line_number (pyStrip node.key) ln⟩
            (i + 1) rest

/-- Embedding of `extract_nodes_with_location_info(nodes)`. -/
def extract_nodes_with_location_info (nodes : List NodeRecord) : Option LocInfo :=
  locGo ⟨[], [], [], []⟩ 0 nodes

/-- One PDG edge entry: source line, target line, and the value of the
`"c/d"` attribute. -/
abbrev PEdge := Int × Int × String

/-- Model of a networkx `DiGraph` over line numbers: vertices in insertion
order, and at most one edge entry per ordered vertex pair. -/
structure PyDiGraph where
  nodeList : List Int
  edgeList : List PEdge
deriving DecidableEq, Repr

/-- The empty `nx.DiGraph()`. -/
def newDiGraph : PyDiGraph := ⟨[], []⟩

/-- Adding a vertex (as `add_edges_from` implicitly does for both edge
endpoints): no effect when already present. -/
def addNode (g : PyDiGraph) (v : Int) : PyDiGraph :=
  if v ∈ g.nodeList then g else { g with nodeList := g.nodeList ++ [v] }

/-- Adding one `(u, v, attrs)` triple as `add_edges_from` does: both
endpoints become vertices; an existing `(u, v)` edge has its attribute
overwritten in place, otherwise the edge is appended. -/
def addEdge (g : PyDiGraph) (e : PEdge) : PyDiGraph :=
  let g1 := addNode (addNode g e.1) e.2.1
  if g1.edgeList.any (fun x => decide (x.1 = e.1) && decide (x.2.1 = e.2.1)) then
    { g1 with
      edgeList := g1.edgeList.map (fun x => if x.1 = e.1 ∧ x.2.1 = e.2.1 then e else x) }
  else
    { g1 with edgeList := g1.edgeList ++ [e] }

/-- `G.add_edges_from(list)`. -/
def addEdgesFrom (g : PyDiGraph) (es : List PEdge) : PyDiGraph :=
  es.foldl addEdge g

/-- Predecessor iteration `PDG._pred[v]`, in edge-insertion order. -/
def predList (g : PyDiGraph) (v : Int) : List Int :=
  (g.edgeList.filter (fun e => decide (e.2.1 = v))).map (fun e => e.1)

/-- Successor iteration `PDG._succ[v]`, in edge-insertion order. -/
def succList (g : PyDiGraph) (v : Int) : List Int :=
  (g.edgeList.filter (fun e => decide (e.1 = v))).map (fun e => e.2.1)

/-- `G.subgraph(s).copy()`: vertices are the graph's vertices that are in
`s` (vertices of `s` unknown to the graph are silently ignored), edges are
the graph's edges with both endpoints kept. -/
def subgraphG (g : PyDiGraph) (s : List Int) : PyDiGraph :=
  let vs := g.nodeList.filter (fun v => decide (v ∈ s))
  { nodeList := vs
    edgeList := g.edgeList.filter (fun e => decide (e.1 ∈ vs) && decide (e.2.1 ∈ vs)) }

/-- The key-line map `{"call": ..., "array": ..., "ptr": ..., "arith": ...}`
built by `build_PDG`; each field is a Python `set` of line numbers in
insertion order. -/
structure KeyLineMap where
  call : List Int
  array : List Int
  ptr : List Int
  arith : List Int
deriving DecidableEq, Repr

/-- The four key-line categories. -/
inductive Category
  | call
  | array
  | ptr
  | arith
deriving DecidableEq, Repr

/-- Category lookup in a `KeyLineMap`. -/
def KeyLineMap.get (m : KeyLineMap) : Category → List Int
  | .call => m.call
  | .array => m.array
  | .ptr => m.ptr
  | .arith => m.arith

/-- The Python exceptions `build_PDG` can raise: the `assert` on the
sensitive-API path, the `IndexError` from `nodes[node_idx + 1]`, and the
`ValueError` from `extract_nodes_with_location_info`. -/
inductive PdgError
  | sensiMissing
  | indexError
  | valueError
deriving DecidableEq, Repr

/-- Classification loop of `build_PDG` over the node sequence: buckets
resolved line numbers into the four categories; reading the callee name of
a `CallExpression` node at the end of the table raises `IndexError`. -/
def classifyGo (nodes : List NodeRecord) (sensi : List String) :
    KeyLineMap → Nat → List NodeRecord → Except PdgError KeyLineMap
  | acc, _, [] => Except.ok acc
  | acc, i, node :: rest =>
    let ntype := pyStrip node.type
    if ntype = "CallExpression" then
      match nodes[i + 1]? with
      | none => Except.error PdgError.indexError
      | some nxt =>
        if pyStrip nxt.code = "" then classifyGo nodes sensi acc (i + 1) rest
        else if pyStrip nxt.code ∈ sensi then
          let ln := extract_line_number nodes i
          if ln > 0 then
            classifyGo nodes sensi { acc with call := setAdd acc.call ln } (i + 1) rest
          else classifyGo nodes sensi acc (i + 1) rest
        else classifyGo nodes sensi acc (i + 1) rest
    else if ntype = "ArrayIndexing" then
      let ln := extract_line_number nodes i
      if ln > 0 then
        classifyGo nodes sensi { acc with array := setAdd acc.array ln } (i + 1) rest
      else classifyGo nodes sensi acc (i + 1) rest
    else if ntype = "PtrMemberAccess" then
      let ln := extract_line_number nodes i
      if ln > 0 then
        classifyGo nodes sensi { acc with ptr := setAdd acc.ptr ln } (i + 1) rest
      else classifyGo nodes sensi acc (i + 1) rest
    else if pyStrip node.operator ∈ ["+", "-", "*", "/"] then
      let ln := extract_line_number nodes i
      if ln > 0 then
        classifyGo nodes sensi { acc with arith := setAdd acc.arith ln } (i + 1) rest
      else classifyGo nodes sensi acc (i + 1) rest
    else classifyGo nodes sensi acc (i + 1) rest

/-- Edge-loop body of `build_PDG`: resolve both endpoints through
`node_id_to_ln` (skip the record when either is missing), then append to
the control list on `CONTROLS` and to the data list on `REACHES`; any
other edge type contributes nothing. -/
def edgeStep (m : List (String × Int)) (acc : List PEdge × List PEdge)
    (e : EdgeRecord) : List PEdge × List PEdge :=
  match dictFind? m (pyStrip e.start), dictFind? m (pyStrip e.end_) with
  | some sl, some el =>
    let t := pyStrip e.type
    let acc1 := if t = "CONTROLS" then (acc.1 ++ [(sl, el, "c")], acc.2) else acc
    if t = "REACHES" then (acc1.1, acc1.2 ++ [(sl, el, "d")]) else acc1
  | _, _ => acc

/-- Embedding of `build_PDG(code_path, sensi_api_path, source_path)`.
Arguments are the contents of the files the source reads: `sensi_api`
is the sensitive-API file's text (`none` when the path does not exist),
`nodes_csv` and `edges_csv` are the already-parsed tables (`none` when
`nodes.csv` resp. `edges.csv` does not exist under `code_path`).
`Except.ok none` is the Python `return None, None`. -/
def build_PDG (sensi_api : Option String) (nodes_csv : Option (List NodeRecord))
    (edges_csv : Option (List EdgeRecord)) :
    Except PdgError (Option (PyDiGraph × KeyLineMap)) :=
  match sensi_api with
  | none => Except.error PdgError.sensiMissing
  | some content =>
    let sensi_api_set := (pySplit content ',').map pyStrip
    match nodes_csv, edges_csv with
    | some nodes, some edges =>
      if nodes.length = 0 then Except.ok none
      else
        match classifyGo nodes sensi_api_set ⟨[], [], [], []⟩ 0 nodes with
        | Except.error err => Except.error err
        | Except.ok klm =>
          match extract_nodes_with_location_info nodes with
          | none => Except.error PdgError.valueError
          | some info =>
            let cd := edges.foldl (edgeStep info.node_id_to_line_number) ([], [])
            Except.ok (some (addEdgesFrom (addEdgesFrom newDiGraph cd.1) cd.2, klm))
    | _, _ => Except.ok none

/-- Queue/visited update for one adjacency iteration of the BFS in
`build_XFG`: every neighbour not yet visited is appended to the queue and
marked visited. -/
def enqueueAll : List Int → List Int → List Int → List Int × List Int
  | queue, visited, [] => (queue, visited)
  | queue, visited, n :: rest =>
    if n ∈ visited then enqueueAll queue visited rest
    else enqueueAll (queue ++ [n]) (visited ++ [n]) rest

/-- Fuel-indexed embedding of the BFS `while` loops in `build_XFG`: pop
the front of the queue, record it in the accumulated line set, enqueue its
unvisited neighbours.  The fuel passed by `sliceLines` exceeds the number
of possible dequeues, so the loop always ends on an empty queue. -/
def bfs (adj : Int → List Int) : Nat → List Int → List Int → List Int → List Int
  | 0, _, _, acc => acc
  | _ + 1, [], _, acc => acc
  | fuel + 1, fro :: rest, visited, acc =>
    let acc2 := setAdd acc fro
    let qv := enqueueAll rest visited (adj fro)
    bfs adj fuel qv.1 qv.2 acc2

/-- The `sliced_lines` set `build_XFG` accumulates for one key line: the
backward pass over predecessors followed by the forward pass over
successors, both seeded with the key line. -/
def sliceLines (g : PyDiGraph) (ln : Int) : List Int :=
  let fuel := g.nodeList.length + g.edgeList.length + 2
  let back := bfs (predList g) fuel [ln] [ln] []
  bfs (succList g) fuel [ln] [ln] back

/-- One extracted slice: the induced subgraph plus the `key_line` graph
attribute. -/
structure Xfg where
  graph : PyDiGraph
  key_line : Int
deriving DecidableEq, Repr

/-- Per-category slice loop of `build_XFG`: one slice per key line, in
iteration order, appended whenever `sliced_lines` is non-empty (which is
always, since the key line itself is in it). -/
def xfgsFor (g : PyDiGraph) : List Int → List Xfg
  | [] => []
  | ln :: rest =>
    let sliced := sliceLines g ln
    if sliced.length ≠ 0 then ⟨subgraphG g sliced, ln⟩ :: xfgsFor g rest
    else xfgsFor g rest

/-- The result dict of `build_XFG`. -/
structure XfgMap where
  call : List Xfg
  array : List Xfg
  ptr : List Xfg
  arith : List Xfg
deriving DecidableEq, Repr

/-- Category lookup in an `XfgMap`. -/
def XfgMap.get (m : XfgMap) : Category → List Xfg
  | .call => m.call
  | .array => m.array
  | .ptr => m.ptr
  | .arith => m.arith

/-- Embedding of `build_XFG(PDG, key_line_map)`: `none` models the Python
`return None` on a `None` input pair. -/
def build_XFG (inp : Option (PyDiGraph × KeyLineMap)) : Option XfgMap :=
  match inp with
  | none => none
  | some (PDG, klm) =>
    some ⟨xfgsFor PDG klm.call, xfgsFor PDG klm.array,
          xfgsFor PDG klm.ptr, xfgsFor PDG klm.arith⟩

/-- Every edge endpoint is a vertex; every graph `build_PDG` constructs
satisfies this. -/
def EdgesClosed (g : PyDiGraph) : Prop :=
  ∀ e ∈ g.edgeList, e.1 ∈ g.nodeList ∧ e.2.1 ∈ g.nodeList

/-- Ordered endpoint pairs of a graph's edge entries. -/
def pairsOf (g : PyDiGraph) : List (Int × Int) :=
  g.edgeList.map (fun e => (e.1, e.2.1))

/-- Node table of the end-to-end example: node 0 is a call at `10:5`,
node 1 carries the callee name `strcpy`, node 2 sits at line 12. -/
def c2nodes : List NodeRecord :=
  [⟨"CallExpression", "", "", "0", some "10:5"⟩,
   ⟨"Symbol", "strcpy", "", "1", none⟩,
   ⟨"Identifier", "", "", "2", some "12:3"⟩]

/-- Edge table of the end-to-end example: one `REACHES` edge from node 0
to node 2. -/
def c2edges : List EdgeRecord :=
  [⟨"0", "2", "REACHES"⟩]

/-- The PDG the end-to-end example produces. -/
def c2graph : PyDiGraph :=
  ⟨[10, 12], [(10, 12, "d")]⟩

/-- The key-line map the end-to-end example produces. -/
def c2klm : KeyLineMap :=
  ⟨[10], [], [], []⟩

/-- The slice map the end-to-end example produces. -/
def c2res : XfgMap :=
  ⟨[⟨⟨[10, 12], [(10, 12, "d")]⟩, 10⟩], [], [], []⟩

/-- Node table with a sensitive call at line 10 and no edges at all. -/
def c1nodes : List NodeRecord :=
  [⟨"CallExpression", "", "", "0", some "10:5"⟩,
   ⟨"Symbol", "strcpy", "", "1", none⟩]

/-- Node table whose last row is a `CallExpression`. -/
def c9nodes : List NodeRecord :=
  [⟨"CallExpression", "", "", "7", some "3:1"⟩]

/-- A node whose `location` is present, non-empty, and unparseable. -/
def c4badNode : NodeRecord :=
  ⟨"X", "", "", "n1", some "abc"⟩

/-- The same node with no `location` at all. -/
def c4noLocNode : NodeRecord :=
  ⟨"X", "", "", "n1", none⟩

/-- Node table where node `b` has no own location but follows node `a`
located at line 5. -/
def c5nodes : List NodeRecord :=
  [⟨"S", "", "", "a", some "5:1"⟩, ⟨"S", "", "", "b", none⟩]

/-- Node table with a well-located node followed by the malformed-location
node. -/
def c4nodes : List NodeRecord :=
  [⟨"S", "", "", "a", some "5:1"⟩, c4badNode]

/-- Lookup after a dict assignment: the assigned key now yields the new
value, every other key is unaffected. -/
theorem dictFind?_dictInsert {α : Type} (d : List (String × α)) (k k2 : String) (v : α) :
    dictFind? (dictInsert d k v) k2 = if k2 = k then some v else dictFind? d k2 := by
  induction d with
  | nil =>
    by_cases h : k2 = k
    · simp [dictInsert, dictFind?, h]
    · simp [dictInsert, dictFind?, h, Ne.symm h]
  | cons p rest ih =>
    obtain ⟨k3, v3⟩ := p
    by_cases h3 : k3 = k
    · subst h3
      by_cases h : k2 = k3
      · simp [dictInsert, dictFind?, h]
      · simp [dictInsert, dictFind?, h, Ne.symm h]
    · by_cases h : k2 = k
      · subst h
        simp [dictInsert, dictFind?, h3, ih, Ne.symm h3]
      · by_cases h23 : k2 = k3
        · subst h23
          simp [dictInsert, dictFind?, h3, h, ih]
        · simp [dictInsert, dictFind?, h3, h, h23, ih, Ne.symm h23]

/-- Membership in a `set.add` result. -/
theorem mem_setAdd (s : List Int) (x y : Int) : y ∈ setAdd s x ↔ y ∈ s ∨ y = x := by
  unfold setAdd
  by_cases h : x ∈ s
  · simp only [if_pos h]
    constructor
    · exact Or.inl
    · rintro (hy | rfl)
      · exact hy
      · exact h
  · simp [if_neg h]

/-- The BFS loop only ever grows the accumulated line set. -/
theorem bfs_acc_subset (adj : Int → List Int) :
    ∀ (fuel : Nat) (q vis acc : List Int) (x : Int),
    x ∈ acc → x ∈ bfs adj fuel q vis acc := by
  intro fuel
  induction fuel with
  | zero =>
    intro q vis acc x hx
    simpa [bfs] using hx
  | succ f ih =>
    intro q vis acc x hx
    cases q with
    | nil => simpa [bfs] using hx
    | cons fro rest =>
      simp only [bfs]
      exact ih _ _ _ x ((mem_setAdd _ _ _).mpr (Or.inl hx))

/-- The first queue entry always ends up in the accumulated line set. -/
theorem bfs_start_mem (adj : Int → List Int) (f : Nat) (ln : Int) (rest vis acc : List Int) :
    ln ∈ bfs adj (f + 1) (ln :: rest) vis acc := by
  simp only [bfs]
  exact bfs_acc_subset adj f _ _ _ ln ((mem_setAdd _ _ _).mpr (Or.inr rfl))

/-- A BFS started at a line with no neighbours stops after recording that
line. -/
theorem bfs_single (adj : Int → List Int) (f : Nat) (ln : Int) (acc : List Int)
    (h : adj ln = []) :
    bfs adj (f + 2) [ln] [ln] acc = setAdd acc ln := by
  simp [bfs, h, enqueueAll]

/-- The key line is always in its own `sliced_lines` set. -/
theorem self_mem_sliceLines (g : PyDiGraph) (ln : Int) : ln ∈ sliceLines g ln := by
  show ln ∈ bfs (succList g) (g.nodeList.length + g.edgeList.length + 1 + 1) [ln] [ln] _
  exact bfs_start_mem _ _ _ _ _ _

/-- With no incident edges at the key line, both passes collect only the
key line itself. -/
theorem sliceLines_no_adj (g : PyDiGraph) (ln : Int)
    (hp : predList g ln = []) (hs : succList g ln = []) :
    sliceLines g ln = [ln] := by
  unfold sliceLines
  show bfs _ (g.nodeList.length + g.edgeList.length + 2) _ _
      (bfs _ (g.nodeList.length + g.edgeList.length + 2) _ _ _) = _
  rw [bfs_single (predList g) _ ln [] hp, bfs_single (succList g) _ ln _ hs]
  simp [setAdd]

/-- Vertex membership in a networkx induced subgraph. -/
theorem mem_subgraphG_nodeList (g : PyDiGraph) (s : List Int) (v : Int) :
    v ∈ (subgraphG g s).nodeList ↔ v ∈ g.nodeList ∧ v ∈ s := by
  simp [subgraphG, List.mem_filter]

/-- Every key line of the iterated set contributes its slice to the
per-category result list. -/
theorem mem_xfgsFor (g : PyDiGraph) (lns : List Int) (ln : Int) (h : ln ∈ lns) :
    Xfg.mk (subgraphG g (sliceLines g ln)) ln ∈ xfgsFor g lns := by
  induction lns with
  | nil => cases h
  | cons a rest ih =>
    rcases List.mem_cons.mp h with rfl | h2
    · have hne : (sliceLines g ln).length ≠ 0 := by
        intro h0
        rw [List.length_eq_zero] at h0
        have := self_mem_sliceLines g ln
        rw [h0] at this
        cases this
      simp only [xfgsFor, if_pos hne]
      exact List.mem_cons_self _ _
    · simp only [xfgsFor]
      split
      · exact List.mem_cons_of_mem _ (ih h2)
      · exact ih h2

/-- Adding a vertex never removes vertices. -/
theorem mem_nodeList_addNode (g : PyDiGraph) (v w : Int) (hw : w ∈ g.nodeList) :
    w ∈ (addNode g v).nodeList := by
  unfold addNode
  split
  · exact hw
  · exact List.mem_append_left _ hw

/-- The added vertex is a vertex afterwards. -/
theorem self_mem_addNode (g : PyDiGraph) (v : Int) : v ∈ (addNode g v).nodeList := by
  unfold addNode
  split
  · assumption
  · simp

/-- Adding a vertex leaves the edge entries unchanged. -/
theorem addNode_edgeList (g : PyDiGraph) (v : Int) : (addNode g v).edgeList = g.edgeList := by
  unfold addNode
  split <;> rfl

/-- Adding an edge never removes vertices. -/
theorem mem_nodeList_addEdge (g : PyDiGraph) (e : PEdge) (w : Int) (hw : w ∈ g.nodeList) :
    w ∈ (addEdge g e).nodeList := by
  simp only [addEdge]
  split <;>
    exact mem_nodeList_addNode _ _ _ (mem_nodeList_addNode _ _ _ hw)

/-- Every vertex of the graph survives `add_edges_from`. -/
theorem mem_nodeList_addEdgesFrom (es : List PEdge) :
    ∀ (g : PyDiGraph) (w : Int), w ∈ g.nodeList → w ∈ (addEdgesFrom g es).nodeList := by
  induction es with
  | nil => intro g w hw; exact hw
  | cons e rest ih =>
    intro g w hw
    exact ih _ _ (mem_nodeList_addEdge g e w hw)

/-- `newDiGraph` trivially has all edge endpoints among its vertices. -/
theorem edgesClosed_newDiGraph : EdgesClosed newDiGraph := by
  intro e he
  cases he

/-- `addEdge` keeps all edge endpoints among the vertices. -/
theorem edgesClosed_addEdge (g : PyDiGraph) (e : PEdge) (h : EdgesClosed g) :
    EdgesClosed (addEdge g e) := by
  have h1 : e.1 ∈ (addNode (addNode g e.1) e.2.1).nodeList :=
    mem_nodeList_addNode _ _ _ (self_mem_addNode g e.1)
  have h2 : e.2.1 ∈ (addNode (addNode g e.1) e.2.1).nodeList :=
    self_mem_addNode _ _
  have hold : ∀ x ∈ g.edgeList,
      x.1 ∈ (addNode (addNode g e.1) e.2.1).nodeList ∧
      x.2.1 ∈ (addNode (addNode g e.1) e.2.1).nodeList := by
    intro x hx
    exact ⟨mem_nodeList_addNode _ _ _ (mem_nodeList_addNode _ _ _ (h x hx).1),
           mem_nodeList_addNode _ _ _ (mem_nodeList_addNode _ _ _ (h x hx).2)⟩
  unfold EdgesClosed
  simp only [addEdge]
  split
  · intro x hx
    simp only [addNode_edgeList] at hx
    rcases List.mem_map.mp hx with ⟨y, hy, hxy⟩
    by_cases hc : y.1 = e.1 ∧ y.2.1 = e.2.1
    · rw [if_pos hc] at hxy
      subst hxy
      exact ⟨h1, h2⟩
    · rw [if_neg hc] at hxy
      subst hxy
      exact hold y hy
  · intro x hx
    simp only [addNode_edgeList] at hx
    rcases List.mem_append.mp hx with hx2 | hx2
    · exact hold x hx2
    · rw [List.mem_singleton.mp hx2]
      exact ⟨h1, h2⟩

/-- `add_edges_from` keeps all edge endpoints among the vertices. -/
theorem edgesClosed_addEdgesFrom (es : List PEdge) :
    ∀ (g : PyDiGraph), EdgesClosed g → EdgesClosed (addEdgesFrom g es) := by
  induction es with
  | nil => intro g h; exact h
  | cons e rest ih =>
    intro g h
    exact ih _ (edgesClosed_addEdge g e h)

/-- A non-vertex has no predecessors. -/
theorem predList_eq_nil (g : PyDiGraph) (h : EdgesClosed g) (ln : Int)
    (hln : ln ∉ g.nodeList) : predList g ln = [] := by
  unfold predList
  have : g.edgeList.filter (fun e => decide (e.2.1 = ln)) = [] := by
    rw [List.filter_eq_nil_iff]
    intro e he
    simp only [decide_eq_true_eq]
    intro heq
    exact hln (heq ▸ (h e he).2)
  rw [this]
  rfl

/-- A non-vertex has no successors. -/
theorem succList_eq_nil (g : PyDiGraph) (h : EdgesClosed g) (ln : Int)
    (hln : ln ∉ g.nodeList) : succList g ln = [] := by
  unfold succList
  have : g.edgeList.filter (fun e => decide (e.1 = ln)) = [] := by
    rw [List.filter_eq_nil_iff]
    intro e he
    simp only [decide_eq_true_eq]
    intro heq
    exact hln (heq ▸ (h e he).1)
  rw [this]
  rfl

/-- Adding one edge keeps the endpoint pairs duplicate-free: an existing
pair is overwritten in place, a new pair is appended. -/
theorem pairsOf_nodup_addEdge (g : PyDiGraph) (e : PEdge) (h : (pairsOf g).Nodup) :
    (pairsOf (addEdge g e)).Nodup := by
  unfold pairsOf at h ⊢
  simp only [addEdge]
  split
  · next hany =>
    have hmap : (g.edgeList.map (fun x => if x.1 = e.1 ∧ x.2.1 = e.2.1 then e else x)).map
        (fun x => (x.1, x.2.1)) = g.edgeList.map (fun x => (x.1, x.2.1)) := by
      rw [List.map_map]
      apply List.map_congr_left
      intro x hx
      by_cases hc : x.1 = e.1 ∧ x.2.1 = e.2.1
      · simp [hc, Function.comp, hc.1, hc.2]
      · simp [hc, Function.comp]
    simpa [addNode_edgeList, hmap] using h
  · next hany =>
    have hnotin : (e.1, e.2.1) ∉ g.edgeList.map (fun x => (x.1, x.2.1)) := by
      intro hmem
      rcases List.mem_map.mp hmem with ⟨y, hy, hxy⟩
      obtain ⟨h1, h2⟩ : y.1 = e.1 ∧ y.2.1 = e.2.1 := by
        simpa [Prod.ext_iff] using hxy
      apply hany
      rw [addNode_edgeList, addNode_edgeList, List.any_eq_true]
      exact ⟨y, hy, by simp [h1, h2]⟩
    simp only [addNode_edgeList, List.map_append, List.map_cons, List.map_nil]
    rw [List.nodup_append]
    refine ⟨h, List.nodup_singleton _, ?_⟩
    intro a ha hb
    rw [List.mem_singleton] at hb
    exact hnotin (hb ▸ ha)

/-- `add_edges_from` keeps the endpoint pairs duplicate-free. -/
theorem pairsOf_nodup_addEdgesFrom (es : List PEdge) :
    ∀ (g : PyDiGraph), (pairsOf g).Nodup → (pairsOf (addEdgesFrom g es)).Nodup := by
  induction es with
  | nil => intro g h; exact h
  | cons e rest ih =>
    intro g h
    exact ih _ (pairsOf_nodup_addEdge g e h)

/-- The triple handed to `addEdge` is an edge entry afterwards. -/
theorem mem_addEdge_self (g : PyDiGraph) (e : PEdge) : e ∈ (addEdge g e).edgeList := by
  simp only [addEdge]
  split
  · next hany =>
    rw [List.any_eq_true] at hany
    rcases hany with ⟨y, hy, hyp⟩
    simp only [Bool.and_eq_true, decide_eq_true_eq] at hyp
    rw [addNode_edgeList, addNode_edgeList] at hy
    simp only [addNode_edgeList]
    rw [List.mem_map]
    exact ⟨y, hy, by rw [if_pos hyp]⟩
  · simp [addNode_edgeList]

/-- An edge entry with a different endpoint pair survives `addEdge`. -/
theorem mem_addEdge_of_pair_ne (g : PyDiGraph) (x e : PEdge) (hx : x ∈ g.edgeList)
    (hne : ¬(x.1 = e.1 ∧ x.2.1 = e.2.1)) : x ∈ (addEdge g e).edgeList := by
  simp only [addEdge]
  split
  · simp only [addNode_edgeList]
    rw [List.mem_map]
    exact ⟨x, hx, by rw [if_neg hne]⟩
  · simp only [addNode_edgeList]
    exact List.mem_append_left _ hx

/-- An edge entry whose pair is never touched again survives a whole
`add_edges_from`. -/
theorem mem_addEdgesFrom_of_no_pair (es : List PEdge) :
    ∀ (g : PyDiGraph) (x : PEdge), x ∈ g.edgeList →
    (∀ y ∈ es, ¬(y.1 = x.1 ∧ y.2.1 = x.2.1)) → x ∈ (addEdgesFrom g es).edgeList := by
  induction es with
  | nil => intro g x hx _; exact hx
  | cons e rest ih =>
    intro g x hx hno
    apply ih _ x
    · apply mem_addEdge_of_pair_ne g x e hx
      intro hc
      exact hno e (List.mem_cons_self _ _) ⟨hc.1.symm, hc.2.symm⟩
    · intro y hy
      exact hno y (List.mem_cons_of_mem _ hy)

/-- If a triple occurs in the list handed to `add_edges_from` and every
entry of the list with the same endpoint pair is that very triple, the
triple is an edge entry of the result. -/
theorem mem_addEdgesFrom_uniform (es : List PEdge) :
    ∀ (g : PyDiGraph) (sl el : Int) (t : String), (sl, el, t) ∈ es →
    (∀ x ∈ es, x.1 = sl → x.2.1 = el → x = (sl, el, t)) →
    (sl, el, t) ∈ (addEdgesFrom g es).edgeList := by
  induction es with
  | nil => intro g sl el t h; cases h
  | cons e rest ih =>
    intro g sl el t hmem huni
    by_cases hrest : (sl, el, t) ∈ rest
    · exact ih _ sl el t hrest (fun x hx => huni x (List.mem_cons_of_mem _ hx))
    · have he : e = (sl, el, t) := by
        rcases List.mem_cons.mp hmem with h | h
        · exact h.symm
        · exact absurd h hrest
      subst he
      apply mem_addEdgesFrom_of_no_pair rest (addEdge g (sl, el, t)) (sl, el, t)
        (mem_addEdge_self g (sl, el, t))
      intro y hy hc
      have := huni y (List.mem_cons_of_mem _ hy) hc.1 hc.2
      exact hrest (this ▸ hy)

/-- A record whose start id does not resolve contributes nothing. -/
theorem edgeStep_none_left (m : List (String × Int)) (acc : List PEdge × List PEdge)
    (e : EdgeRecord) (h : dictFind? m (pyStrip e.start) = none) : edgeStep m acc e = acc := by
  unfold edgeStep
  rw [h]

/-- A record whose end id does not resolve contributes nothing. -/
theorem edgeStep_none_right (m : List (String × Int)) (acc : List PEdge × List PEdge)
    (e : EdgeRecord) (h : dictFind? m (pyStrip e.end_) = none) : edgeStep m acc e = acc := by
  unfold edgeStep
  cases h1 : dictFind? m (pyStrip e.start) with
  | none => rfl
  | some sl => rw [h]

/-- A resolvable `CONTROLS` record appends exactly one control triple. -/
theorem edgeStep_controls (m : List (String × Int)) (acc : List PEdge × List PEdge)
    (e : EdgeRecord) (sl el : Int) (hs : dictFind? m (pyStrip e.start) = some sl)
    (hf : dictFind? m (pyStrip e.end_) = some el) (ht : pyStrip e.type = "CONTROLS") :
    edgeStep m acc e = (acc.1 ++ [(sl, el, "c")], acc.2) := by
  unfold edgeStep
  rw [hs, hf]
  have hne : ¬("CONTROLS" : String) = "REACHES" := by decide
  simp [ht, hne]

/-- A resolvable `REACHES` record appends exactly one data triple. -/
theorem edgeStep_reaches (m : List (String × Int)) (acc : List PEdge × List PEdge)
    (e : EdgeRecord) (sl el : Int) (hs : dictFind? m (pyStrip e.start) = some sl)
    (hf : dictFind? m (pyStrip e.end_) = some el) (ht : pyStrip e.type = "REACHES") :
    edgeStep m acc e = (acc.1, acc.2 ++ [(sl, el, "d")]) := by
  unfold edgeStep
  rw [hs, hf]
  have hne : ¬("REACHES" : String) = "CONTROLS" := by decide
  simp [ht, hne]

/-- A resolvable record of any other type contributes nothing. -/
theorem edgeStep_other (m : List (String × Int)) (acc : List PEdge × List PEdge)
    (e : EdgeRecord) (hc : ¬pyStrip e.type = "CONTROLS") (hr : ¬pyStrip e.type = "REACHES") :
    edgeStep m acc e = acc := by
  unfold edgeStep
  cases h1 : dictFind? m (pyStrip e.start) with
  | none => rfl
  | some sl =>
    cases h2 : dictFind? m (pyStrip e.end_) with
    | none => rfl
    | some el => simp [hc, hr]

/-- One edge-loop step never removes collected data edges. -/
theorem edgeStep_snd_subset (m : List (String × Int)) (acc : List PEdge × List PEdge)
    (e : EdgeRecord) (x : PEdge) (hx : x ∈ acc.2) : x ∈ (edgeStep m acc e).2 := by
  cases h1 : dictFind? m (pyStrip e.start) with
  | none => rw [edgeStep_none_left m acc e h1]; exact hx
  | some sl =>
    cases h2 : dictFind? m (pyStrip e.end_) with
    | none => rw [edgeStep_none_right m acc e h2]; exact hx
    | some el =>
      by_cases hc : pyStrip e.type = "CONTROLS"
      · rw [edgeStep_controls m acc e sl el h1 h2 hc]; exact hx
      · by_cases hr : pyStrip e.type = "REACHES"
        · rw [edgeStep_reaches m acc e sl el h1 h2 hr]
          exact List.mem_append_left _ hx
        · rw [edgeStep_other m acc e hc hr]; exact hx

/-- The edge loop never removes collected data edges. -/
theorem foldl_edgeStep_snd_subset (m : List (String × Int)) (edges : List EdgeRecord) :
    ∀ (acc : List PEdge × List PEdge) (x : PEdge), x ∈ acc.2 →
    x ∈ (edges.foldl (edgeStep m) acc).2 := by
  induction edges with
  | nil => intro acc x hx; exact hx
  | cons e rest ih =>
    intro acc x hx
    rw [List.foldl_cons]
    exact ih _ x (edgeStep_snd_subset m acc e x hx)

/-- Every collected data edge carries the `"d"` tag. -/
theorem foldl_edgeStep_snd_tag (m : List (String × Int)) (edges : List EdgeRecord) :
    ∀ (acc : List PEdge × List PEdge), (∀ x ∈ acc.2, x.2.2 = "d") →
    ∀ x ∈ (edges.foldl (edgeStep m) acc).2, x.2.2 = "d" := by
  induction edges with
  | nil => intro acc h; exact h
  | cons e rest ih =>
    intro acc h
    rw [List.foldl_cons]
    apply ih
    intro x hx
    cases h1 : dictFind? m (pyStrip e.start) with
    | none => rw [edgeStep_none_left m acc e h1] at hx; exact h x hx
    | some sl =>
      cases h2 : dictFind? m (pyStrip e.end_) with
      | none => rw [edgeStep_none_right m acc e h2] at hx; exact h x hx
      | some el =>
        by_cases hc : pyStrip e.type = "CONTROLS"
        · rw [edgeStep_controls m acc e sl el h1 h2 hc] at hx; exact h x hx
        · by_cases hr : pyStrip e.type = "REACHES"
          · rw [edgeStep_reaches m acc e sl el h1 h2 hr] at hx
            rcases List.mem_append.mp hx with hx2 | hx2
            · exact h x hx2
            · rw [List.mem_singleton.mp hx2]
          · rw [edgeStep_other m acc e hc hr] at hx; exact h x hx

/-- A resolvable `REACHES` record contributes its data triple to the
collected data-edge list. -/
theorem mem_foldl_edgeStep_snd (m : List (String × Int)) (edges : List EdgeRecord)
    (e : EdgeRecord) (sl el : Int) (he : e ∈ edges) (ht : pyStrip e.type = "REACHES")
    (hs : dictFind? m (pyStrip e.start) = some sl) (hf : dictFind? m (pyStrip e.end_) = some el) :
    ∀ (acc : List PEdge × List PEdge), (sl, el, "d") ∈ (edges.foldl (edgeStep m) acc).2 := by
  induction edges with
  | nil => cases he
  | cons a rest ih =>
    intro acc
    rw [List.foldl_cons]
    rcases List.mem_cons.mp he with rfl | h2
    · apply foldl_edgeStep_snd_subset
      rw [edgeStep_reaches m acc e sl el hs hf ht]
      simp
    · exact ih h2 _

/-- Inversion of a successful `build_PDG` run: the location extraction
succeeded and the returned graph is exactly the one assembled from the
collected control and data edge lists. -/
theorem build_PDG_ok_some (s : String) (nodes : List NodeRecord) (edges : List EdgeRecord)
    (g : PyDiGraph) (klm : KeyLineMap)
    (hb : build_PDG (some s) (some nodes) (some edges) = Except.ok (some (g, klm))) :
    ∃ info, extract_nodes_with_location_info nodes = some info ∧
      g = addEdgesFrom
            (addEdgesFrom newDiGraph
              (edges.foldl (edgeStep info.node_id_to_line_number) ([], [])).1)
            (edges.foldl (edgeStep info.node_id_to_line_number) ([], [])).2 := by
  unfold build_PDG at hb
  dsimp only at hb
  by_cases hlen : nodes.length = 0
  · rw [if_pos hlen] at hb
    cases hb
  · rw [if_neg hlen] at hb
    cases hcl : classifyGo nodes ((pySplit s ',').map pyStrip) ⟨[], [], [], []⟩ 0 nodes with
    | error err => rw [hcl] at hb; cases hb
    | ok klm2 =>
      rw [hcl] at hb
      cases hinfo : extract_nodes_with_location_info nodes with
      | none => rw [hinfo] at hb; cases hb
      | some info =>
        rw [hinfo] at hb
        refine ⟨info, rfl, ?_⟩
        have := (Except.ok.inj hb)
        have hpair := (Option.some.inj this)
        have hg := congrArg Prod.fst hpair
        exact hg.symm

/-- Unfolding `locGo` past a node with no location field. -/
theorem locGo_cons_none (acc : LocInfo) (i : Nat) (node : NodeRecord)
    (rest : List NodeRecord) (h : node.location = none) :
    locGo acc i (node :: rest) = locGo acc (i + 1) rest := by
  simp only [locGo, h]

/-- Unfolding `locGo` past a node with an exactly-empty location. -/
theorem locGo_cons_empty (acc : LocInfo) (i : Nat) (node : NodeRecord)
    (rest : List NodeRecord) (loc : String) (h : node.location = some loc)
    (h0 : loc = "") :
    locGo acc i (node :: rest) = locGo acc (i + 1) rest := by
  simp only [locGo, h, if_pos h0]

/-- Unfolding `locGo` at a node whose non-empty location does not parse:
the loop raises. -/
theorem locGo_cons_bad (acc : LocInfo) (i : Nat) (node : NodeRecord)
    (rest : List NodeRecord) (loc : String) (h : node.location = some loc)
    (h0 : ¬loc = "") (hbad : pyInt ((pySplit loc ':').headD "") = none) :
    locGo acc i (node :: rest) = none := by
  simp only [locGo, h, if_neg h0, hbad]

/-- Unfolding `locGo` at a node whose non-empty location parses: the four
accumulators grow. -/
theorem locGo_cons_good (acc : LocInfo) (i : Nat) (node : NodeRecord)
    (rest : List NodeRecord) (loc : String) (ln : Int) (h : node.location = some loc)
    (h0 : ¬loc = "") (hp : pyInt ((pySplit loc ':').headD "") = some ln) :
    locGo acc i (node :: rest) =
      locGo ⟨acc.node_indices ++ [i], acc.node_ids ++ [pyStrip node.key],
             acc.line_numbers ++ [ln],
             dictInsert acc.node_id_to_line_number (pyStrip node.key) ln⟩ (i + 1) rest := by
  simp only [locGo, h, if_neg h0, hp]

/-- A present, non-empty, unparseable location anywhere in the remaining
node sequence makes the extraction loop raise. -/
theorem locGo_none_of_malformed :
    ∀ (rest : List NodeRecord) (acc : LocInfo) (i : Nat) (d : NodeRecord),
    d ∈ rest → ∀ loc : String, d.location = some loc → loc ≠ "" →
    pyInt ((pySplit loc ':').headD "") = none → locGo acc i rest = none := by
  intro rest
  induction rest with
  | nil => intro acc i d hd; cases hd
  | cons n r ih =>
    intro acc i d hd loc hloc hne hbad
    rcases List.mem_cons.mp hd with rfl | h2
    · exact locGo_cons_bad acc i d r loc hloc hne hbad
    · cases hl : n.location with
      | none =>
        rw [locGo_cons_none acc i n r hl]
        exact ih acc _ d h2 loc hloc hne hbad
      | some loc2 =>
        by_cases h0 : loc2 = ""
        · rw [locGo_cons_empty acc i n r loc2 hl h0]
          exact ih acc _ d h2 loc hloc hne hbad
        · cases hp : pyInt ((pySplit loc2 ':').headD "") with
          | none => exact locGo_cons_bad acc i n r loc2 hl h0 hp
          | some ln =>
            rw [locGo_cons_good acc i n r loc2 ln hl h0 hp]
            exact ih _ _ d h2 loc hloc hne hbad

/-- Whatever the loop adds, an already-present identifier stays present. -/
theorem locGo_preserves_present :
    ∀ (rest : List NodeRecord) (acc : LocInfo) (i : Nat) (info : LocInfo),
    locGo acc i rest = some info → ∀ k : String,
    (dictFind? acc.node_id_to_line_number k).isSome →
    (dictFind? info.node_id_to_line_number k).isSome := by
  intro rest
  induction rest with
  | nil =>
    intro acc i info h k hk
    cases Option.some.inj h
    exact hk
  | cons n r ih =>
    intro acc i info h k hk
    cases hl : n.location with
    | none =>
      rw [locGo_cons_none acc i n r hl] at h
      exact ih _ _ _ h k hk
    | some loc =>
      by_cases h0 : loc = ""
      · rw [locGo_cons_empty acc i n r loc hl h0] at h
        exact ih _ _ _ h k hk
      · cases hp : pyInt ((pySplit loc ':').headD "") with
        | none => rw [locGo_cons_bad acc i n r loc hl h0 hp] at h; cases h
        | some ln =>
          rw [locGo_cons_good acc i n r loc ln hl h0 hp] at h
          apply ih _ _ _ h k
          rw [dictFind?_dictInsert]
          by_cases hkk : k = pyStrip n.key
          · rw [if_pos hkk]; rfl
          · rw [if_neg hkk]; exact hk

/-- Identifier-map soundness of the extraction loop: every mapping either
was already in the accumulator or comes from a node of the remaining
sequence via its own location field. -/
theorem locGo_sound :
    ∀ (rest : List NodeRecord) (acc : LocInfo) (i : Nat) (info : LocInfo),
    locGo acc i rest = some info → ∀ (k : String) (ln : Int),
    dictFind? info.node_id_to_line_number k = some ln →
    dictFind? acc.node_id_to_line_number k = some ln ∨
      ∃ n ∈ rest, pyStrip n.key = k ∧ ownLocLine n = some ln := by
  intro rest
  induction rest with
  | nil =>
    intro acc i info h k ln hk
    cases Option.some.inj h
    exact Or.inl hk
  | cons n r ih =>
    intro acc i info h k ln hk
    cases hl : n.location with
    | none =>
      rw [locGo_cons_none acc i n r hl] at h
      rcases ih _ _ _ h k ln hk with hacc | ⟨n2, hn2, hkey, hown⟩
      · exact Or.inl hacc
      · exact Or.inr ⟨n2, List.mem_cons_of_mem _ hn2, hkey, hown⟩
    | some loc =>
      by_cases h0 : loc = ""
      · rw [locGo_cons_empty acc i n r loc hl h0] at h
        rcases ih _ _ _ h k ln hk with hacc | ⟨n2, hn2, hkey, hown⟩
        · exact Or.inl hacc
        · exact Or.inr ⟨n2, List.mem_cons_of_mem _ hn2, hkey, hown⟩
      · cases hp : pyInt ((pySplit loc ':').headD "") with
        | none => rw [locGo_cons_bad acc i n r loc hl h0 hp] at h; cases h
        | some ln0 =>
          rw [locGo_cons_good acc i n r loc ln0 hl h0 hp] at h
          rcases ih _ _ _ h k ln hk with hacc | ⟨n2, hn2, hkey, hown⟩
          · rw [dictFind?_dictInsert] at hacc
            by_cases hkk : k = pyStrip n.key
            · rw [if_pos hkk] at hacc
              refine Or.inr ⟨n, List.mem_cons_self _ _, hkk.symm, ?_⟩
              have hlnln : ln0 = ln := Option.some.inj hacc
              subst hlnln
              simp only [ownLocLine, hl, if_neg h0, hp]
            · rw [if_neg hkk] at hacc
              exact Or.inl hacc
          · exact Or.inr ⟨n2, List.mem_cons_of_mem _ hn2, hkey, hown⟩

/-- Identifier-map completeness of the extraction loop: every remaining
node with its own parseable, non-empty location ends up in the map. -/
theorem locGo_complete :
    ∀ (rest : List NodeRecord) (acc : LocInfo) (i : Nat) (info : LocInfo),
    locGo acc i rest = some info → ∀ n ∈ rest, ∀ ln : Int,
    ownLocLine n = some ln →
    (dictFind? info.node_id_to_line_number (pyStrip n.key)).isSome := by
  intro rest
  induction rest with
  | nil => intro acc i info h n hn; cases hn
  | cons m r ih =>
    intro acc i info h n hn ln hown
    rcases List.mem_cons.mp hn with rfl | h2
    · cases hl : n.location with
      | none =>
        simp only [ownLocLine, hl] at hown
        exact Option.noConfusion hown
      | some loc =>
        simp only [ownLocLine, hl] at hown
        by_cases h0 : loc = ""
        · rw [if_pos h0] at hown; exact Option.noConfusion hown
        · rw [if_neg h0] at hown
          rw [locGo_cons_good acc i n r loc ln hl h0 hown] at h
          apply locGo_preserves_present r _ _ _ h
          rw [dictFind?_dictInsert, if_pos rfl]
          rfl
    · cases hl : m.location with
      | none =>
        rw [locGo_cons_none acc i m r hl] at h
        exact ih _ _ _ h n h2 ln hown
      | some loc =>
        by_cases h0 : loc = ""
        · rw [locGo_cons_empty acc i m r loc hl h0] at h
          exact ih _ _ _ h n h2 ln hown
        · cases hp : pyInt ((pySplit loc ':').headD "") with
          | none => rw [locGo_cons_bad acc i m r loc hl h0 hp] at h; cases h
          | some ln0 =>
            rw [locGo_cons_good acc i m r loc ln0 hl h0 hp] at h
            exact ih _ _ _ h n h2 ln hown

/-- Header names not assigned by the remaining loop keep their lookup. -/
theorem rowGo_find_not_mem (lparts : List String) :
    ∀ (hps : List String) (inst : List (String × String)) (i : Nat) (k : String),
    k ∉ hps → dictFind? (rowGo lparts inst i hps) k = dictFind? inst k := by
  intro hps
  induction hps with
  | nil => intro inst i k _; rfl
  | cons hp rest ih =>
    intro inst i k hk
    simp only [rowGo]
    rw [ih _ _ k (fun h => hk (List.mem_cons_of_mem _ h))]
    rw [dictFind?_dictInsert]
    have hne : ¬k = hp := fun h => hk (by rw [h]; exact List.mem_cons_self _ _)
    rw [if_neg hne]

/-- Lookup of a header name after the row loop: the value of its last
occurrence, read (stripped) from the row parts at that occurrence's index,
or the empty string beyond the row's end. -/
theorem rowGo_find (lparts : List String) :
    ∀ (hps : List String) (inst : List (String × String)) (i j : Nat) (hp : String),
    hps[j]? = some hp → (∀ j2, j < j2 → hps[j2]? ≠ some hp) →
    dictFind? (rowGo lparts inst i hps) hp =
      some (match lparts[i + j]? with | some c => pyStrip c | none => "") := by
  intro hps
  induction hps with
  | nil =>
    intro inst i j hp hj
    rw [List.getElem?_nil] at hj
    cases hj
  | cons h0 rest ih =>
    intro inst i j hp hj hno
    cases j with
    | zero =>
      rw [List.getElem?_cons_zero] at hj
      have hh0 : h0 = hp := Option.some.inj hj
      subst hh0
      have hnotin : h0 ∉ rest := by
        intro hmem
        rcases List.mem_iff_getElem?.mp hmem with ⟨j2, hj2⟩
        exact hno (j2 + 1) (Nat.succ_pos _) (by rw [List.getElem?_cons_succ]; exact hj2)
      simp only [rowGo]
      rw [rowGo_find_not_mem lparts rest _ _ h0 hnotin]
      rw [dictFind?_dictInsert, if_pos rfl]
      rfl
    | succ j' =>
      rw [List.getElem?_cons_succ] at hj
      have hno' : ∀ j2, j' < j2 → rest[j2]? ≠ some hp := by
        intro j2 hlt
        have := hno (j2 + 1) (Nat.succ_lt_succ hlt)
        rw [List.getElem?_cons_succ] at this
        exact this
      simp only [rowGo]
      rw [ih _ (i + 1) j' hp hj hno']
      have harith : i + 1 + j' = i + (j' + 1) := by omega
      rw [harith]

/-- C2: on the three-node table where node 0 is a `CallExpression` at
`10:5`, node 1 carries the code `strcpy`, the sensitive-API file contains
`strcpy`, and the edge table has one `REACHES` edge from node 0 to the
node at line 12, `build_PDG` puts line 10 into the `call` category and
builds a PDG with exactly the data-tagged edge 10 → 12, and `build_XFG`
yields for key line 10 a slice with vertex set `{10, 12}` and exactly one
data-tagged edge. -/
theorem c2_end_to_end :
    build_PDG (some "strcpy") (some c2nodes) (some c2edges) =
      Except.ok (some (c2graph, c2klm)) ∧
    c2klm.call = [10] ∧ c2graph.edgeList = [(10, 12, "d")] ∧
    build_XFG (some (c2graph, c2klm)) = some c2res ∧
    c2res.call = [⟨⟨[10, 12], [(10, 12, "d")]⟩, 10⟩] :=
  ⟨rfl, rfl, rfl, rfl, rfl⟩

/-- C9: on a node table whose last row is a `CallExpression` (sensitive
API list present, both tables present), `build_PDG` raises `IndexError`
reading the callee name behind the end of the table, instead of dropping
the candidate. -/
theorem c9_index_error_on_trailing_call :
    build_PDG (some "api") (some c9nodes) (some ([] : List EdgeRecord)) =
      Except.error PdgError.indexError :=
  rfl

/-- C1 (counterexample): with a sensitive call at line 10 and an empty
edge table, line 10 is a key line, yet its slice's vertex set is empty —
not `{10}` — because the networkx subgraph ignores vertices the PDG does
not contain. -/
theorem c1_counterexample :
    build_PDG (some "strcpy") (some c1nodes) (some ([] : List EdgeRecord)) =
      Except.ok (some (⟨[], []⟩, ⟨[10], [], [], []⟩)) ∧
    build_XFG (some (⟨[], []⟩, ⟨[10], [], [], []⟩)) =
      some ⟨[⟨⟨[], []⟩, 10⟩], [], [], []⟩ ∧
    ¬((10 : Int) ∈ (Xfg.mk ⟨[], []⟩ 10).graph.nodeList) :=
  ⟨rfl, rfl, by decide⟩

/-- C1 (amended): for every PDG and key-line map produced by `build_PDG`
and every key line of every category, `build_XFG` emits a slice tagged
with that key line; the key line belongs to the slice's vertex set exactly
when it is a vertex of the PDG (i.e. has at least one incident dependence
edge), and a key line with no incident edges yields a slice whose vertex
set is empty. -/
theorem c1_slice_key_line (s : String) (nodesL : List NodeRecord) (edgesL : List EdgeRecord)
    (g : PyDiGraph) (klm : KeyLineMap) (res : XfgMap) (cat : Category) (ln : Int)
    (hb : build_PDG (some s) (some nodesL) (some edgesL) = Except.ok (some (g, klm)))
    (hres : build_XFG (some (g, klm)) = some res)
    (hln : ln ∈ klm.get cat) :
    ∃ x ∈ res.get cat, x.key_line = ln ∧
      (ln ∈ g.nodeList → ln ∈ x.graph.nodeList) ∧
      (ln ∉ g.nodeList → x.graph.nodeList = []) := by
  have hclosed : EdgesClosed g := by
    rcases build_PDG_ok_some s nodesL edgesL g klm hb with ⟨info, hinfo, hg⟩
    rw [hg]
    exact edgesClosed_addEdgesFrom _ _ (edgesClosed_addEdgesFrom _ _ edgesClosed_newDiGraph)
  have hres2 : res.get cat = xfgsFor g (klm.get cat) := by
    have hr : res = ⟨xfgsFor g klm.call, xfgsFor g klm.array,
        xfgsFor g klm.ptr, xfgsFor g klm.arith⟩ := (Option.some.inj hres).symm
    rw [hr]
    cases cat <;> rfl
  refine ⟨⟨subgraphG g (sliceLines g ln), ln⟩, ?_, rfl, ?_, ?_⟩
  · rw [hres2]
    exact mem_xfgsFor g _ ln hln
  · intro hmem
    exact (mem_subgraphG_nodeList g _ ln).mpr ⟨hmem, self_mem_sliceLines g ln⟩
  · intro hnot
    have hsl : sliceLines g ln = [ln] :=
      sliceLines_no_adj g ln (predList_eq_nil g hclosed ln hnot)
        (succList_eq_nil g hclosed ln hnot)
    show (subgraphG g (sliceLines g ln)).nodeList = []
    rw [hsl]
    simp only [subgraphG]
    rw [List.filter_eq_nil_iff]
    intro v hv
    simp only [decide_eq_true_eq, List.mem_singleton]
    intro heq
    exact hnot (heq ▸ hv)

/-- C1 (witness): the amended statement applied to the end-to-end example,
where key line 10 is a PDG vertex. -/
theorem c1_witness :
    build_PDG (some "strcpy") (some c2nodes) (some c2edges) =
      Except.ok (some (c2graph, c2klm)) ∧
    build_XFG (some (c2graph, c2klm)) = some c2res ∧
    (10 : Int) ∈ c2klm.get Category.call ∧
    ∃ x ∈ c2res.get Category.call, x.key_line = 10 ∧
      ((10 : Int) ∈ c2graph.nodeList → (10 : Int) ∈ x.graph.nodeList) ∧
      ((10 : Int) ∉ c2graph.nodeList → x.graph.nodeList = []) :=
  ⟨rfl, rfl, by decide,
   c1_slice_key_line "strcpy" c2nodes c2edges c2graph c2klm c2res Category.call 10
     rfl rfl (by decide)⟩

/-- C3 (counterexample): with the node table absent, `build_PDG` does
return the no-graph result without an error, but `build_XFG` applied to it
returns the `None` sentinel, not an empty slice collection. -/
theorem c3_counterexample :
    build_PDG (some "strcpy") none (some ([] : List EdgeRecord)) = Except.ok none ∧
    build_XFG none = none ∧
    (none : Option XfgMap) ≠ some ⟨[], [], [], []⟩ :=
  ⟨rfl, rfl, by decide⟩

/-- C3 (amended): when the node or edge table is absent (and the
sensitive-API list exists), `build_PDG` returns the explicit no-graph
result `(None, None)` without raising, and `build_XFG` applied to that
result returns the same `None` sentinel — no slices and no error — which
the caller (`dump_XFG`) treats as zero slices. -/
theorem c3_no_graph_flow (s : String) (nodesOpt : Option (List NodeRecord))
    (edgesOpt : Option (List EdgeRecord)) (h : nodesOpt = none ∨ edgesOpt = none) :
    build_PDG (some s) nodesOpt edgesOpt = Except.ok none ∧ build_XFG none = none := by
  constructor
  · rcases h with rfl | rfl
    · cases edgesOpt <;> rfl
    · cases nodesOpt <;> rfl
  · rfl

/-- C3 (witness): the amended statement at a concrete missing node
table. -/
theorem c3_witness :
    ((none : Option (List NodeRecord)) = none ∨
      (some ([] : List EdgeRecord) : Option (List EdgeRecord)) = none) ∧
    build_PDG (some "strcpy") none (some ([] : List EdgeRecord)) = Except.ok none ∧
    build_XFG none = none :=
  ⟨Or.inl rfl, c3_no_graph_flow "strcpy" none (some []) (Or.inl rfl)⟩

/-- C4 (counterexample): a node whose location is present, non-empty and
unparseable makes `extract_nodes_with_location_info` raise `ValueError`
(modelled as `none`), whereas the same node without a location is skipped
silently — so a malformed location is not treated like a missing one
there. -/
theorem c4_counterexample :
    extract_nodes_with_location_info [c4badNode] = none ∧
    extract_nodes_with_location_info [c4noLocNode] = some ⟨[], [], [], []⟩ ∧
    (none : Option LocInfo) ≠ some (⟨[], [], [], []⟩ : LocInfo) :=
  ⟨rfl, rfl, by decide⟩

/-- C4 (amended): the backward line-resolution walk
(`extract_line_number`) does treat a node with an unparseable location
exactly like one with no location — it silently moves to the preceding
node — but `extract_nodes_with_location_info` raises `ValueError` on any
node whose location is present, non-empty and unparseable, aborting the
file instead of continuing. -/
theorem c4_malformed_location (nodes : List NodeRecord) (idx : Nat) (c : NodeRecord)
    (hc : nodes[idx + 1]? = some c) (hmal : locLine c = none)
    (d : NodeRecord) (hd : d ∈ nodes) (loc : String) (hdl : d.location = some loc)
    (hne : loc ≠ "") (hbad : pyInt ((pySplit loc ':').headD "") = none) :
    extract_line_number nodes (idx + 1) = extract_line_number nodes idx ∧
    extract_nodes_with_location_info nodes = none := by
  constructor
  · simp only [extract_line_number, hc, hmal]
  · exact locGo_none_of_malformed nodes ⟨[], [], [], []⟩ 0 d hd loc hdl hne hbad

/-- C4 (witness): the amended statement at the concrete two-node table
whose second node has location `abc`. -/
theorem c4_witness :
    c4nodes[0 + 1]? = some c4badNode ∧ locLine c4badNode = none ∧
    c4badNode ∈ c4nodes ∧ c4badNode.location = some "abc" ∧
    ("abc" : String) ≠ "" ∧ pyInt ((pySplit "abc" ':').headD "") = none ∧
    extract_line_number c4nodes (0 + 1) = extract_line_number c4nodes 0 ∧
    extract_nodes_with_location_info c4nodes = none :=
  ⟨rfl, rfl, by decide, rfl, by decide, rfl,
   c4_malformed_location c4nodes 0 c4badNode rfl rfl c4badNode (by decide) "abc" rfl
     (by decide) rfl⟩

/-- C5 (counterexample): node `b` has no own location but follows node `a`
at line 5, so the backward-walk rule would resolve it to line 5; the
`node_id_to_line` map nevertheless contains only `a`. -/
theorem c5_counterexample :
    extract_nodes_with_location_info c5nodes =
      some ⟨[0], ["a"], [5], [("a", 5)]⟩ ∧
    dictFind? [("a", (5 : Int))] "b" = none :=
  ⟨rfl, rfl⟩

/-- C5 (amended): the `node_id_to_line` side output maps exactly the node
identifiers whose own `location` field is present and non-empty, each to
the parse of its own location; the backward-walk resolution rule is not
applied, so a node without its own location is absent from the map even
when a preceding node has one. -/
theorem c5_node_id_map (nodes : List NodeRecord) (info : LocInfo)
    (hs : extract_nodes_with_location_info nodes = some info) :
    (∀ (k : String) (ln : Int), dictFind? info.node_id_to_line_number k = some ln →
      ∃ n ∈ nodes, pyStrip n.key = k ∧ ownLocLine n = some ln) ∧
    (∀ n ∈ nodes, ∀ ln : Int, ownLocLine n = some ln →
      dictFind? info.node_id_to_line_number (pyStrip n.key) ≠ none) := by
  constructor
  · intro k ln hk
    rcases locGo_sound nodes ⟨[], [], [], []⟩ 0 info hs k ln hk with hacc | h
    · exact Option.noConfusion hacc
    · exact h
  · intro n hn ln hown
    have hsome := locGo_complete nodes ⟨[], [], [], []⟩ 0 info hs n hn ln hown
    exact Option.ne_none_iff_isSome.mpr hsome

/-- C5 (witness): the amended statement at the concrete two-node table;
the single mapping `a ↦ 5` indeed comes from node `a`'s own location. -/
theorem c5_witness :
    extract_nodes_with_location_info c5nodes = some ⟨[0], ["a"], [5], [("a", 5)]⟩ ∧
    (∀ (k : String) (ln : Int),
      dictFind? (LocInfo.mk [0] ["a"] [5] [("a", 5)]).node_id_to_line_number k = some ln →
      ∃ n ∈ c5nodes, pyStrip n.key = k ∧ ownLocLine n = some ln) :=
  ⟨rfl, (c5_node_id_map c5nodes ⟨[0], ["a"], [5], [("a", 5)]⟩ rfl).1⟩

/-- C6: per edge record, the loop of `build_PDG` contributes nothing (and
raises nothing) when either endpoint identifier is absent from
`node_id_to_line`; when both resolve, a `CONTROLS` record appends exactly
one control-tagged line edge, a `REACHES` record exactly one data-tagged
line edge, and any other type contributes nothing. -/
theorem c6_edge_resolution (m : List (String × Int)) (acc : List PEdge × List PEdge)
    (e : EdgeRecord) :
    ((dictFind? m (pyStrip e.start) = none ∨ dictFind? m (pyStrip e.end_) = none) →
      edgeStep m acc e = acc) ∧
    (∀ sl el : Int, dictFind? m (pyStrip e.start) = some sl →
      dictFind? m (pyStrip e.end_) = some el →
      (pyStrip e.type = "CONTROLS" →
        edgeStep m acc e = (acc.1 ++ [(sl, el, "c")], acc.2)) ∧
      (pyStrip e.type = "REACHES" →
        edgeStep m acc e = (acc.1, acc.2 ++ [(sl, el, "d")])) ∧
      (¬pyStrip e.type = "CONTROLS" → ¬pyStrip e.type = "REACHES" →
        edgeStep m acc e = acc)) := by
  constructor
  · rintro (h | h)
    · exact edgeStep_none_left m acc e h
    · exact edgeStep_none_right m acc e h
  · intro sl el hs hf
    exact ⟨fun hc => edgeStep_controls m acc e sl el hs hf hc,
           fun hr => edgeStep_reaches m acc e sl el hs hf hr,
           fun hc hr => edgeStep_other m acc e hc hr⟩

/-- C6 (witness): the statement at the end-to-end example's single
`REACHES` record. -/
theorem c6_witness :
    dictFind? [("0", (10 : Int)), ("2", 12)] (pyStrip (EdgeRecord.mk "0" "2" "REACHES").start) =
      some 10 ∧
    dictFind? [("0", (10 : Int)), ("2", 12)] (pyStrip (EdgeRecord.mk "0" "2" "REACHES").end_) =
      some 12 ∧
    pyStrip (EdgeRecord.mk "0" "2" "REACHES").type = "REACHES" ∧
    edgeStep [("0", (10 : Int)), ("2", 12)] ([], []) ⟨"0", "2", "REACHES"⟩ =
      ([], [(10, 12, "d")]) :=
  ⟨rfl, rfl, rfl,
   ((c6_edge_resolution [("0", 10), ("2", 12)] ([], []) ⟨"0", "2", "REACHES"⟩).2
     10 12 rfl rfl).2.1 rfl⟩

/-- C7: a missing sensitive-API list makes `build_PDG` raise its assertion
regardless of the tables (the check precedes the table-existence check),
whereas a missing node or edge table yields the non-error no-graph
result. -/
theorem c7_failure_severities (nodesOpt : Option (List NodeRecord))
    (edgesOpt : Option (List EdgeRecord)) :
    build_PDG none nodesOpt edgesOpt = Except.error PdgError.sensiMissing ∧
    (∀ s : String, nodesOpt = none ∨ edgesOpt = none →
      build_PDG (some s) nodesOpt edgesOpt = Except.ok none) := by
  constructor
  · rfl
  · intro s h
    rcases h with rfl | rfl
    · cases edgesOpt <;> rfl
    · cases nodesOpt <;> rfl

/-- C7 (witness): both severities at a concrete missing node table. -/
theorem c7_witness :
    build_PDG none none (some ([] : List EdgeRecord)) =
      Except.error PdgError.sensiMissing ∧
    ((none : Option (List NodeRecord)) = none ∨
      (some ([] : List EdgeRecord) : Option (List EdgeRecord)) = none) ∧
    build_PDG (some "strcpy") none (some ([] : List EdgeRecord)) = Except.ok none :=
  ⟨(c7_failure_severities none (some [])).1, Or.inl rfl,
   (c7_failure_severities none (some [])).2 "strcpy" (Or.inl rfl)⟩

/-- C8: `read_csv` fails on a missing path; on an existing file it returns
one field-name-to-value mapping per data row in file order, using the
first line as header; a field looked up by its header name (at its last
occurrence position `j`) holds the stripped `j`-th tab-part of the
stripped row, or the empty string when the row has fewer fields. -/
theorem c8_read_csv_contract :
    read_csv none = none ∧
    (∀ lines : List String, ∃ d, read_csv (some lines) = some d ∧
      d.length = (lines.drop 1).length ∧
      ∀ (i : Nat) (row : String), (lines.drop 1)[i]? = some row →
        d[i]? = some (rowInstance (headerParts (lines.headD "")) row)) ∧
    (∀ (hps : List String) (line : String) (j : Nat) (hp : String),
      hps[j]? = some hp → (∀ j2, j < j2 → hps[j2]? ≠ some hp) →
      dictFind? (rowInstance hps line) hp =
        some (((pySplit (pyStrip line) '\t')[j]?.map pyStrip).getD "")) := by
  refine ⟨rfl, ?_, ?_⟩
  · intro lines
    refine ⟨(lines.drop 1).map (rowInstance (headerParts (lines.headD ""))), rfl,
      List.length_map _ _, ?_⟩
    intro i row hrow
    rw [List.getElem?_map, hrow]
    rfl
  · intro hps line j hp hj hno
    unfold rowInstance
    rw [rowGo_find _ hps [] 0 j hp hj hno]
    rw [Nat.zero_add]
    cases h : (pySplit (pyStrip line) '\t')[j]? <;> simp [h]

/-- C8 (witness): the field contract at a concrete header and a row with
fewer fields, whose missing trailing field reads back as the empty
string. -/
theorem c8_witness :
    (["a", "b", "c"] : List String)[2]? = some "c" ∧
    (∀ j2, 2 < j2 → (["a", "b", "c"] : List String)[j2]? ≠ some "c") ∧
    dictFind? (rowInstance ["a", "b", "c"] "x") "c" = some "" := by
  have hno : ∀ j2, 2 < j2 → (["a", "b", "c"] : List String)[j2]? ≠ some "c" := by
    intro j2 h2
    have hlen : (["a", "b", "c"] : List String).length ≤ j2 := by
      simp only [List.length_cons, List.length_nil]
      omega
    rw [List.getElem?_eq_none hlen]
    exact fun h => Option.noConfusion h
  exact ⟨rfl, hno, c8_read_csv_contract.2.2 ["a", "b", "c"] "x" 2 "c" rfl hno⟩

/-- C10: every PDG `build_PDG` returns has at most one edge entry per
ordered line pair, and whenever a `REACHES` record resolves to a pair
`(sl, el)`, the edge kept for that pair is data-tagged — data edges are
added after control edges and overwrite the tag. -/
theorem c10_pair_unique_data_tag (s : String) (nodesL : List NodeRecord)
    (edgesL : List EdgeRecord) (g : PyDiGraph) (klm : KeyLineMap) (info : LocInfo)
    (hb : build_PDG (some s) (some nodesL) (some edgesL) = Except.ok (some (g, klm)))
    (hinfo : extract_nodes_with_location_info nodesL = some info) :
    (pairsOf g).Nodup ∧
    (∀ e ∈ edgesL, pyStrip e.type = "REACHES" →
      ∀ sl el : Int, dictFind? info.node_id_to_line_number (pyStrip e.start) = some sl →
        dictFind? info.node_id_to_line_number (pyStrip e.end_) = some el →
        (sl, el, "d") ∈ g.edgeList) := by
  rcases build_PDG_ok_some s nodesL edgesL g klm hb with ⟨info2, hinfo2, hg⟩
  rw [hinfo] at hinfo2
  cases Option.some.inj hinfo2
  subst hg
  constructor
  · apply pairsOf_nodup_addEdgesFrom
    apply pairsOf_nodup_addEdgesFrom
    simp [pairsOf, newDiGraph]
  · intro e he ht sl el hsl hel
    have hmem : (sl, el, "d") ∈
        (edgesL.foldl (edgeStep info.node_id_to_line_number) ([], [])).2 :=
      mem_foldl_edgeStep_snd _ edgesL e sl el he ht hsl hel ([], [])
    have htags : ∀ x ∈ (edgesL.foldl (edgeStep info.node_id_to_line_number) ([], [])).2,
        x.2.2 = "d" :=
      foldl_edgeStep_snd_tag _ edgesL ([], []) (by intro x hx; cases hx)
    apply mem_addEdgesFrom_uniform _ _ sl el "d" hmem
    intro x hx h1 h2
    have ht2 := htags x hx
    obtain ⟨x1, x2, x3⟩ := x
    dsimp only at h1 h2 ht2
    rw [h1, h2, ht2]

/-- C10 (witness): applied to the end-to-end example's PDG. -/
theorem c10_witness :
    build_PDG (some "strcpy") (some c2nodes) (some c2edges) =
      Except.ok (some (c2graph, c2klm)) ∧
    extract_nodes_with_location_info c2nodes =
      some ⟨[0, 2], ["0", "2"], [10, 12], [("0", 10), ("2", 12)]⟩ ∧
    (pairsOf c2graph).Nodup :=
  ⟨rfl, rfl,
   (c10_pair_unique_data_tag "strcpy" c2nodes c2edges c2graph c2klm
     ⟨[0, 2], ["0", "2"], [10, 12], [("0", 10), ("2", 12)]⟩ rfl rfl).1⟩
